import Mathlib

/-!
Verification of the core logic of the moneytracker.ai app (src/app.py).

The Python source is shallowly embedded: monetary amounts (Python floats) become
rationals, dates become integer day indices where only ordering and day offsets
matter, and (year, month) pairs where only calendar-month membership matters;
the sqlite table keyed by date becomes an association list; the remote quote
call becomes an explicit `Except` parameter. Python's stable `sorted` becomes
`List.insertionSort`, which performs the same stable ascending sort.
-/

namespace MoneyTracker

/-- The four spending categories, in the order of `CATEGORY_ORDER` in app.py. -/
inductive Category
  | food
  | shopping
  | leisure
  | other
deriving DecidableEq, Repr

open Category

/-- Embedding of `CATEGORY_ORDER` from app.py. -/
def CATEGORY_ORDER : List Category := [food, shopping, leisure, other]

/-- Display labels, from `CATEGORY_CONFIG` in app.py. -/
def categoryLabel : Category → String
  | food => "Food/Beverage"
  | shopping => "Shopping"
  | leisure => "Hobbies"
  | other => "Etc (Travel)"

/-- Position of a category in `CATEGORY_ORDER` (its tie-breaking priority). -/
def prio : Category → ℕ
  | food => 0
  | shopping => 1
  | leisure => 2
  | other => 3

/-- The `latest_row` dict handed to `dominant_category` / `determine_feedback`:
four category amounts plus the total. -/
structure DayRow where
  food : ℚ
  shopping : ℚ
  leisure : ℚ
  other : ℚ
  total : ℚ
deriving DecidableEq

/-- Amount stored in a `DayRow` for a given category key. -/
def catValue (r : DayRow) : Category → ℚ
  | food => r.food
  | shopping => r.shopping
  | leisure => r.leisure
  | other => r.other

/-- Python's `max(iterable, key=f)` over `best :: rest`: a later element replaces
the current best only when its key is strictly greater, so the first element
attaining the maximum wins. -/
def pyMax (f : Category → ℚ) : Category → List Category → Category
  | best, [] => best
  | best, c :: rest => pyMax f (if f best < f c then c else best) rest

/-- Embedding of `dominant_category` from app.py: for `total <= 0` it returns
`("food", 0.0)`; otherwise the dict-iteration maximum over `CATEGORY_ORDER`
and ratio `dominant / total` (guarded by `if total` in the source). -/
def dominant_category (r : DayRow) : Category × ℚ :=
  if r.total ≤ 0 then (food, 0)
  else
    let top_cat := pyMax (catValue r) food [shopping, leisure, other]
    (top_cat, if r.total = 0 then 0 else catValue r top_cat / r.total)

/-- The advisory returned by `determine_feedback` when `total <= 0`. -/
def noSpendingMsg : String :=
  "No spending entered for the selected day. Add values to get actionable feedback."

/-- The strong advisory template of `determine_feedback`. -/
def strongMsg (label : String) : String :=
  "Strong feedback: " ++ label ++ " is taking too much of your daily budget. " ++
    "Your current pace is not sustainable. Set a strict hard cap immediately and pause non-essential spending for the next 7 days."

/-- The warning advisory template of `determine_feedback`. -/
def warningMsg (label : String) : String :=
  "Warning: " ++ label ++ " is above your healthy spending range. " ++
    "Apply a daily cap and enforce a 24-hour delay rule before any optional purchase."

/-- The stable advisory of `determine_feedback`; it names no category. -/
def stableMsg : String :=
  "Your spending distribution is stable. Keep consistent daily caps and continue tracking."

/-- Embedding of `determine_feedback` from app.py. -/
def determine_feedback (r : DayRow) (projected_year : ℚ) : String :=
  if r.total ≤ 0 then noSpendingMsg
  else
    let tc := dominant_category r
    let label := categoryLabel tc.1
    if tc.2 ≥ 1/2 ∨ projected_year ≥ 50000 then strongMsg label
    else if tc.2 ≥ 35/100 ∨ projected_year ≥ 30000 then warningMsg label
    else stableMsg

/-- Largest of the four category amounts of a row. -/
def maxAmount (r : DayRow) : ℚ :=
  max (max r.food r.shopping) (max r.leisure r.other)

/-- Modelled from the spec's words: the dominant category is the category with
the largest amount among the four, ties broken by the fixed priority order
(first in `CATEGORY_ORDER` wins on exact tie). -/
def specDominant (r : DayRow) : Category :=
  (CATEGORY_ORDER.find? (fun c => decide (catValue r c = maxAmount r))).getD food

/-- Modelled from the spec's words: dominant amount divided by the total. -/
def specRatio (r : DayRow) : ℚ :=
  catValue r (specDominant r) / r.total

/-- A category dominates a row when its amount is maximal and it has the least
priority index among the categories attaining that amount. -/
def IsDominant (r : DayRow) (c : Category) : Prop :=
  (∀ d, catValue r d ≤ catValue r c) ∧
    ∀ d, catValue r d = catValue r c → prio c ≤ prio d

lemma isDominant_unique {r : DayRow} {c d : Category}
    (hc : IsDominant r c) (hd : IsDominant r d) : c = d := by
  have hv : catValue r c = catValue r d := le_antisymm (hd.1 c) (hc.1 d)
  have h1 : prio c ≤ prio d := hc.2 d hv.symm
  have h2 : prio d ≤ prio c := hd.2 c hv
  have : prio c = prio d := le_antisymm h1 h2
  cases c <;> cases d <;> simp_all [prio]

lemma pyMax_isDominant (r : DayRow) :
    IsDominant r (pyMax (catValue r) food [shopping, leisure, other]) := by
  simp only [pyMax]
  constructor
  · intro d
    split_ifs <;> cases d <;> simp_all [catValue] <;> linarith
  · intro d hd
    split_ifs at hd ⊢ <;> cases d <;>
      simp_all [catValue, prio] <;> linarith

lemma specDominant_isDominant (r : DayRow) : IsDominant r (specDominant r) := by
  have hle : ∀ d, catValue r d ≤ maxAmount r := by
    intro d
    cases d <;> simp [catValue, maxAmount]
  by_cases hf : catValue r food = maxAmount r
  · have hres : specDominant r = food := by
      simp [specDominant, CATEGORY_ORDER, List.find?, hf]
    rw [hres]
    exact ⟨fun d => hf ▸ hle d, fun d _ => Nat.zero_le _⟩
  · by_cases hs : catValue r shopping = maxAmount r
    · have hres : specDominant r = shopping := by
        simp [specDominant, CATEGORY_ORDER, List.find?, hf, hs]
      rw [hres]
      refine ⟨fun d => hs ▸ hle d, fun d hd => ?_⟩
      cases d <;> simp_all [prio]
    · by_cases hl : catValue r leisure = maxAmount r
      · have hres : specDominant r = leisure := by
          simp [specDominant, CATEGORY_ORDER, List.find?, hf, hs, hl]
        rw [hres]
        refine ⟨fun d => hl ▸ hle d, fun d hd => ?_⟩
        cases d <;> simp_all [prio]
      · have ho : catValue r other = maxAmount r := by
          rcases max_choice (max r.food r.shopping) (max r.leisure r.other) with h | h <;>
            rcases max_choice r.food r.shopping with h1 | h1 <;>
              rcases max_choice r.leisure r.other with h2 | h2 <;>
                simp_all [maxAmount, catValue] <;> linarith
        have hres : specDominant r = other := by
          simp [specDominant, CATEGORY_ORDER, List.find?, hf, hs, hl, ho]
        rw [hres]
        refine ⟨fun d => ho ▸ hle d, fun d hd => ?_⟩
        cases d <;> simp_all [prio]

lemma dominant_eq_specDominant (r : DayRow) :
    pyMax (catValue r) food [shopping, leisure, other] = specDominant r :=
  isDominant_unique (pyMax_isDominant r) (specDominant_isDominant r)

lemma dominant_category_pos {r : DayRow} (h : 0 < r.total) :
    dominant_category r = (specDominant r, specRatio r) := by
  have h1 : ¬ r.total ≤ 0 := not_le.mpr h
  have h2 : ¬ r.total = 0 := ne_of_gt h
  simp [dominant_category, h1, h2, dominant_eq_specDominant, specRatio]

/-- Claim C4: for every row with positive total, `dominant_category` returns the
category with the largest amount among food, shopping, leisure, other; when
several categories tie exactly for the largest amount the winner is the one
with the least priority index (first in the fixed order food, shopping,
leisure, other); and the returned ratio is the dominant amount divided by the
total. -/
theorem dominant_category_spec (r : DayRow) (h : 0 < r.total) :
    (∀ d, catValue r d ≤ catValue r (dominant_category r).1) ∧
    (∀ d, catValue r d = catValue r (dominant_category r).1 →
      prio (dominant_category r).1 ≤ prio d) ∧
    (dominant_category r).2 = catValue r (dominant_category r).1 / r.total := by
  have h1 : ¬ r.total ≤ 0 := not_le.mpr h
  have h2 : ¬ r.total = 0 := ne_of_gt h
  have hfst : (dominant_category r).1 = pyMax (catValue r) food [shopping, leisure, other] := by
    simp [dominant_category, h1]
  refine ⟨?_, ?_, ?_⟩
  · intro d
    rw [hfst]
    exact (pyMax_isDominant r).1 d
  · intro d hdv
    rw [hfst] at hdv ⊢
    exact (pyMax_isDominant r).2 d hdv
  · simp [dominant_category, h1, h2, hfst]

/-- Witness for claim C4 at the concrete row (10, 5, 5, 0, 20). -/
theorem dominant_category_spec_witness :
    (0:ℚ) < (⟨10, 5, 5, 0, 20⟩ : DayRow).total ∧
    ((∀ d, catValue ⟨10, 5, 5, 0, 20⟩ d ≤
        catValue ⟨10, 5, 5, 0, 20⟩ (dominant_category ⟨10, 5, 5, 0, 20⟩).1) ∧
     (∀ d, catValue ⟨10, 5, 5, 0, 20⟩ d =
        catValue ⟨10, 5, 5, 0, 20⟩ (dominant_category ⟨10, 5, 5, 0, 20⟩).1 →
        prio (dominant_category ⟨10, 5, 5, 0, 20⟩).1 ≤ prio d) ∧
     (dominant_category ⟨10, 5, 5, 0, 20⟩).2 =
        catValue ⟨10, 5, 5, 0, 20⟩ (dominant_category ⟨10, 5, 5, 0, 20⟩).1 / 20) :=
  ⟨by norm_num, dominant_category_spec ⟨10, 5, 5, 0, 20⟩ (by norm_num)⟩

/-- Claim C1: `determine_feedback` is exactly the four-way decision tree
evaluated in order: total not positive gives the no-spending advisory with no
further checks; otherwise dominant ratio at least 0.5 or projected year at
least 50000 gives the strong advisory naming the dominant category's display
label; otherwise ratio at least 0.35 or projected year at least 30000 gives
the warning advisory naming the dominant category; otherwise the stable
advisory naming no category. -/
theorem determine_feedback_tree (r : DayRow) (py : ℚ) :
    determine_feedback r py =
      if r.total ≤ 0 then noSpendingMsg
      else if specRatio r ≥ 1/2 ∨ py ≥ 50000 then
        strongMsg (categoryLabel (specDominant r))
      else if specRatio r ≥ 35/100 ∨ py ≥ 30000 then
        warningMsg (categoryLabel (specDominant r))
      else stableMsg := by
  by_cases ht : r.total ≤ 0
  · simp [determine_feedback, ht]
  · have h : 0 < r.total := not_le.mp ht
    have hd : dominant_category r = (specDominant r, specRatio r) := dominant_category_pos h
    simp [determine_feedback, ht, hd]

/-- One row of the loaded history as `calculate_comparison` observes it: the
date as an absolute day index (only ordering and day offsets matter there)
and the day's total. -/
structure DayRecord where
  date : ℤ
  total : ℚ
deriving DecidableEq

/-- Embedding of the `ComparisonStats` dataclass of app.py. -/
structure ComparisonStats where
  current_total : ℚ
  prev_day_total : ℚ
  prev_week_avg : ℚ
  prev_month_avg : ℚ
deriving DecidableEq

/-- Embedding of `calculate_comparison` from app.py. Pandas timestamps become
day indices; boolean-mask row selection becomes `List.filter`, `.iloc[0]`
becomes `head?`, and the column mean becomes sum over length. -/
def calculate_comparison (df : List DayRecord) (selected : ℤ) : ComparisonStats :=
  if df.isEmpty then ⟨0, 0, 0, 0⟩
  else
    let row := df.filter (fun r => decide (r.date = selected))
    let current_total := match row.head? with
      | some r => r.total
      | none => 0
    let prev_day_row := df.filter (fun r => decide (r.date = selected - 1))
    let prev_day_total := match prev_day_row.head? with
      | some r => r.total
      | none => 0
    let week_df := df.filter (fun r => decide (selected - 7 ≤ r.date) && decide (r.date < selected))
    let prev_week_avg :=
      if week_df.isEmpty then 0 else (week_df.map DayRecord.total).sum / week_df.length
    let month_df := df.filter (fun r => decide (selected - 30 ≤ r.date) && decide (r.date < selected))
    let prev_month_avg :=
      if month_df.isEmpty then 0 else (month_df.map DayRecord.total).sum / month_df.length
    ⟨current_total, prev_day_total, prev_week_avg, prev_month_avg⟩

/-- Modelled from the spec's words: the arithmetic mean of `total` over the
records whose date lies in the half-open window from `lo` (included) to `hi`
(excluded); 0 when the window holds no record. -/
def windowMean (df : List DayRecord) (lo hi : ℤ) : ℚ :=
  let w := df.filter (fun r => decide (lo ≤ r.date ∧ r.date < hi))
  if w.isEmpty then 0 else (w.map DayRecord.total).sum / w.length

lemma window_filter_eq (df : List DayRecord) (lo hi : ℤ) :
    df.filter (fun r => decide (lo ≤ r.date) && decide (r.date < hi)) =
      df.filter (fun r => decide (lo ≤ r.date ∧ r.date < hi)) := by
  apply List.filter_congr
  intro x _
  by_cases h1 : lo ≤ x.date <;> by_cases h2 : x.date < hi <;> simp [h1, h2]

lemma calculate_comparison_week (df : List DayRecord) (selected : ℤ) :
    (calculate_comparison df selected).prev_week_avg =
      windowMean df (selected - 7) selected := by
  rcases df with _ | ⟨a, t⟩
  · simp [calculate_comparison, windowMean]
  · simp only [calculate_comparison, List.isEmpty_cons, Bool.false_eq_true,
      if_false, windowMean, window_filter_eq]

lemma calculate_comparison_month (df : List DayRecord) (selected : ℤ) :
    (calculate_comparison df selected).prev_month_avg =
      windowMean df (selected - 30) selected := by
  rcases df with _ | ⟨a, t⟩
  · simp [calculate_comparison, windowMean]
  · simp only [calculate_comparison, List.isEmpty_cons, Bool.false_eq_true,
      if_false, windowMean, window_filter_eq]

lemma windowMean_cons_out {r : DayRecord} (df : List DayRecord) {lo hi : ℤ}
    (h : ¬ (lo ≤ r.date ∧ r.date < hi)) :
    windowMean (r :: df) lo hi = windowMean df lo hi := by
  simp [windowMean, List.filter_cons, h]

/-- Claim C2: the week and month averages of `calculate_comparison` are the
arithmetic means of `total` over the half-open day windows that include the
start date (selected minus 7, resp. 30, days) and exclude the selected date,
each 0 when its window holds no record; in particular a record dated exactly
the selected date never contributes to either average. -/
theorem comparison_window_averages (df : List DayRecord) (selected : ℤ) :
    (calculate_comparison df selected).prev_week_avg =
      windowMean df (selected - 7) selected ∧
    (calculate_comparison df selected).prev_month_avg =
      windowMean df (selected - 30) selected ∧
    ∀ r : DayRecord, r.date = selected →
      (calculate_comparison (r :: df) selected).prev_week_avg =
        (calculate_comparison df selected).prev_week_avg ∧
      (calculate_comparison (r :: df) selected).prev_month_avg =
        (calculate_comparison df selected).prev_month_avg := by
  refine ⟨calculate_comparison_week df selected, calculate_comparison_month df selected, ?_⟩
  intro r hr
  have hout : ∀ lo : ℤ, ¬ (lo ≤ r.date ∧ r.date < selected) := by
    intro lo h
    exact absurd (hr ▸ h.2) (lt_irrefl selected)
  constructor
  · rw [calculate_comparison_week, calculate_comparison_week,
      windowMean_cons_out df (hout (selected - 7))]
  · rw [calculate_comparison_month, calculate_comparison_month,
      windowMean_cons_out df (hout (selected - 30))]

/-- Witness for claim C2: a record dated exactly on the selected day does not
change the week or month average over a concrete one-record history. -/
theorem comparison_window_averages_witness :
    (calculate_comparison [⟨5, 10⟩, ⟨3, 6⟩] 5).prev_week_avg =
      (calculate_comparison [⟨3, 6⟩] 5).prev_week_avg ∧
    (calculate_comparison [⟨5, 10⟩, ⟨3, 6⟩] 5).prev_month_avg =
      (calculate_comparison [⟨3, 6⟩] 5).prev_month_avg :=
  (comparison_window_averages [⟨3, 6⟩] 5).2.2 ⟨5, 10⟩ rfl

/-- Claim C5: `calculate_comparison` on an empty history returns a
`ComparisonStats` whose four fields are all zero. -/
theorem comparison_empty_history (selected : ℤ) :
    calculate_comparison [] selected = ⟨0, 0, 0, 0⟩ := rfl

/-- One row of the history as `projected_month_year` observes it: the record's
calendar year and month together with the day's total. -/
structure MonthRecord where
  year : ℤ
  month : ℤ
  total : ℚ
deriving DecidableEq

/-- Embedding of `projected_month_year` from app.py: the mean total over the
records of the selected calendar month (0 when that set is empty), multiplied
by 30 and by 365. -/
def projected_month_year (df : List MonthRecord) (selYear selMonth : ℤ) : ℚ × ℚ :=
  if df.isEmpty then (0, 0)
  else
    let month_df := df.filter (fun r => decide (r.year = selYear) && decide (r.month = selMonth))
    let daily_avg :=
      if month_df.isEmpty then 0 else (month_df.map MonthRecord.total).sum / month_df.length
    (daily_avg * 30, daily_avg * 365)

/-- Claim C6: the pair returned by `projected_month_year` always satisfies
projectedYear = projectedMonth * (365 / 30), both being the same daily
average multiplied by 30 and by 365. -/
theorem projected_year_ratio (df : List MonthRecord) (selYear selMonth : ℤ) :
    (projected_month_year df selYear selMonth).2 =
      (projected_month_year df selYear selMonth).1 * (365 / 30) := by
  unfold projected_month_year
  split
  · norm_num
  · rw [mul_assoc]
    norm_num

/-- Claim C10: for a non-empty history none of whose records falls in the
selected calendar month and year, `projected_month_year` returns (0, 0): the
daily average falls back to 0 for an empty month set, not to the all-time
average. -/
theorem projected_month_year_no_month_data (df : List MonthRecord) (selYear selMonth : ℤ)
    (hne : df ≠ []) (h : ∀ r ∈ df, ¬ (r.year = selYear ∧ r.month = selMonth)) :
    projected_month_year df selYear selMonth = (0, 0) := by
  have hempty : df.filter (fun r => decide (r.year = selYear) && decide (r.month = selMonth)) = [] := by
    rw [List.filter_eq_nil_iff]
    intro r hr
    have := h r hr
    by_cases h1 : r.year = selYear <;> by_cases h2 : r.month = selMonth <;> simp_all
  have hdfne : ¬ df.isEmpty := by simpa [List.isEmpty_iff] using hne
  simp [projected_month_year, hdfne, hempty]

/-- Witness for claim C10 at a concrete one-record history dated outside the
selected month. -/
theorem projected_month_year_no_month_data_witness :
    projected_month_year [⟨2024, 1, 5⟩] 2025 2 = (0, 0) :=
  projected_month_year_no_month_data [⟨2024, 1, 5⟩] 2025 2 (by simp) (by simp)

/-- One row of the `daily_spending` table of app.py (the key `spend_date` is
held separately by the table model); timestamps abstracted to naturals. -/
structure StoredRow where
  food : ℚ
  shopping : ℚ
  leisure : ℚ
  other : ℚ
  total : ℚ
  created_at : ℕ
  updated_at : ℕ
deriving DecidableEq

/-- The `daily_spending` table, keyed by `spend_date`; the table keeps at most
one row per date, modelled by in-place update on key collision. -/
def DB : Type := List (String × StoredRow)

/-- Embedding of `get_spending_by_date` from app.py: point lookup by date. -/
def get_spending_by_date : DB → String → Option StoredRow
  | [], _ => none
  | (k, row) :: rest, d => if k = d then some row else get_spending_by_date rest d

/-- SQLite's INSERT ... ON CONFLICT(spend_date) DO UPDATE as run by
`upsert_spending`: a new date is appended; an existing date has every field of
the row replaced by the excluded values except `created_at`, which is not in
the update set and is preserved. -/
def upsertRow : DB → String → StoredRow → DB
  | [], d, new => [(d, new)]
  | (k, row) :: rest, d, new =>
    if k = d then (k, { new with created_at := row.created_at }) :: rest
    else (k, row) :: upsertRow rest d new

/-- Embedding of `upsert_spending` from app.py: the stored total is recomputed
as the sum of the four category amounts, and both timestamps of the candidate
row are the current time. -/
def upsert_spending (db : DB) (spend_date : String)
    (food shopping leisure other : ℚ) (now : ℕ) : DB :=
  upsertRow db spend_date
    ⟨food, shopping, leisure, other, food + shopping + leisure + other, now, now⟩

lemma get_upsertRow (db : DB) (d : String) (new : StoredRow) :
    get_spending_by_date (upsertRow db d new) d =
      some (match get_spending_by_date db d with
            | some old => { new with created_at := old.created_at }
            | none => new) := by
  induction db with
  | nil => simp [upsertRow, get_spending_by_date]
  | cons p rest ih =>
    obtain ⟨k, row⟩ := p
    by_cases hk : k = d <;> simp [upsertRow, get_spending_by_date, hk, ih]

/-- Claim C7: every record written through `upsert_spending` stores a total
equal to the sum of the four category amounts; the total is recomputed from
those amounts on every write, never stored independently of that sum. -/
theorem upsert_total_invariant (db : DB) (d : String)
    (food shopping leisure other : ℚ) (now : ℕ) (row : StoredRow)
    (h : get_spending_by_date (upsert_spending db d food shopping leisure other now) d
      = some row) :
    row.total = row.food + row.shopping + row.leisure + row.other ∧
    row.food = food ∧ row.shopping = shopping ∧
    row.leisure = leisure ∧ row.other = other := by
  rw [upsert_spending, get_upsertRow] at h
  rcases hold : get_spending_by_date db d with _ | old <;>
    rw [hold] at h <;> cases h <;> simp

/-- Witness for claim C7: one concrete write into the empty table. -/
theorem upsert_total_invariant_witness :
    ∃ row : StoredRow,
      get_spending_by_date (upsert_spending [] "2025-01-01" 1 2 3 4 7) "2025-01-01"
        = some row ∧
      row.total = row.food + row.shopping + row.leisure + row.other :=
  ⟨_, rfl, (upsert_total_invariant [] "2025-01-01" 1 2 3 4 7 _ rfl).1⟩

/-- Claim C8: an upsert for a date that already has a stored record overwrites
the four category fields and the total, leaves `created_at` unchanged and
refreshes only `updated_at`; a second upsert with identical arguments yields
the same stored total and still does not change `created_at`. -/
theorem upsert_overwrite_frame (db : DB) (d : String)
    (food shopping leisure other : ℚ) (t1 t2 : ℕ) (old : StoredRow)
    (h : get_spending_by_date db d = some old) :
    get_spending_by_date (upsert_spending db d food shopping leisure other t1) d =
      some ⟨food, shopping, leisure, other,
        food + shopping + leisure + other, old.created_at, t1⟩ ∧
    get_spending_by_date
        (upsert_spending (upsert_spending db d food shopping leisure other t1)
          d food shopping leisure other t2) d =
      some ⟨food, shopping, leisure, other,
        food + shopping + leisure + other, old.created_at, t2⟩ := by
  have h1 : get_spending_by_date (upsert_spending db d food shopping leisure other t1) d =
      some ⟨food, shopping, leisure, other,
        food + shopping + leisure + other, old.created_at, t1⟩ := by
    rw [upsert_spending, get_upsertRow, h]
  refine ⟨h1, ?_⟩
  simp only [upsert_spending] at h1 ⊢
  rw [get_upsertRow, h1]

/-- Witness for claim C8: a concrete overwrite of an existing record followed
by an identical second upsert. -/
theorem upsert_overwrite_frame_witness :
    get_spending_by_date
        (upsert_spending (upsert_spending [("d", ⟨9, 9, 9, 9, 36, 2, 2⟩)] "d" 1 2 3 4 5)
          "d" 1 2 3 4 6) "d" =
      some ⟨1, 2, 3, 4, 1 + 2 + 3 + 4, 2, 6⟩ :=
  (upsert_overwrite_frame [("d", ⟨9, 9, 9, 9, 36, 2, 2⟩)] "d" 1 2 3 4 5 6 _ rfl).2

/-- Embedding of `get_rich_quote` from app.py. The remote chat-completion call
is passed in explicitly: `Except.error e` is the exception caught by the
source's handler (described by its message), `Except.ok content` the message
content of a successful response, which the source reads as `content or ""`
before stripping and joining lines. The numeric and text inputs only feed the
prompt and are kept for fidelity. -/
def get_rich_quote (openai_api_key : String) (model_name : String)
    (today_total projected_year : ℚ) (feedback : String)
    (remote : Except String (Option String)) : Option String × Option String :=
  if openai_api_key = "" then
    (none, some "Enter OpenAI API key to generate a rich-mindset quote.")
  else
    match remote with
    | .ok content => (some (((content.getD "").trim).replace "\n" " "), none)
    | .error e => (none, some ("OpenAI request failed: " ++ e))

/-- Claim C9: `get_rich_quote` never fails past its boundary: an empty API key
yields an absent quote with an explicit error message without consulting the
remote call, any remote failure yields an absent quote with an explicit error
message, and a successful remote call yields a quote with an absent error. -/
theorem quote_error_boundary (key model_name : String)
    (today_total projected_year : ℚ) (feedback : String)
    (remote : Except String (Option String)) :
    (key = "" →
      get_rich_quote key model_name today_total projected_year feedback remote =
        (none, some "Enter OpenAI API key to generate a rich-mindset quote.")) ∧
    (key ≠ "" → ∀ e, remote = .error e →
      get_rich_quote key model_name today_total projected_year feedback remote =
        (none, some ("OpenAI request failed: " ++ e))) ∧
    (key ≠ "" → ∀ c, remote = .ok c →
      ∃ t, get_rich_quote key model_name today_total projected_year feedback remote =
        (some t, none)) := by
  refine ⟨fun hk => ?_, fun hk e he => ?_, fun hk c hc => ?_⟩
  · simp [get_rich_quote, hk]
  · simp [get_rich_quote, hk, he]
  · exact ⟨((c.getD "").trim).replace "\n" " ", by simp [get_rich_quote, hk, hc]⟩

/-- Witness for claim C9 at concrete inputs: empty key, failing remote call,
successful remote call. -/
theorem quote_error_boundary_witness :
    get_rich_quote "" "gpt-4o-mini" 1 2 "f" (.ok (some "q")) =
      (none, some "Enter OpenAI API key to generate a rich-mindset quote.") ∧
    get_rich_quote "k" "gpt-4o-mini" 1 2 "f" (.error "boom") =
      (none, some ("OpenAI request failed: " ++ "boom")) ∧
    ∃ t, get_rich_quote "k" "gpt-4o-mini" 1 2 "f" (.ok (some "q")) = (some t, none) :=
  ⟨(quote_error_boundary "" "gpt-4o-mini" 1 2 "f" (.ok (some "q"))).1 rfl,
   (quote_error_boundary "k" "gpt-4o-mini" 1 2 "f" (.error "boom")).2.1
     (by decide) "boom" rfl,
   (quote_error_boundary "k" "gpt-4o-mini" 1 2 "f" (.ok (some "q"))).2.2
     (by decide) (some "q") rfl⟩

/-- A catalog entry of app.py: brand, model, price. -/
structure CatalogItem where
  brand : String
  model : String
  price : ℚ
deriving DecidableEq

/-- Order by price, the key of the sort in `pick_best_item`. -/
def priceLE (a b : CatalogItem) : Prop := a.price ≤ b.price

instance : DecidableRel priceLE := fun a b => inferInstanceAs (Decidable (a.price ≤ b.price))

instance : IsTotal CatalogItem priceLE := ⟨fun a b => le_total a.price b.price⟩

instance : IsTrans CatalogItem priceLE := ⟨fun _ _ _ h1 h2 => le_trans h1 h2⟩

/-- Embedding of `pick_best_item` from app.py. Python's `sorted` with a key is
the stable ascending sort, which `List.insertionSort` by `priceLE` computes;
the trailing element of the affordable slice becomes `getLast?` and the
leading element of the sorted catalog becomes `head?`, with `none` modelling
the IndexError a Python empty catalog would raise. -/
def pick_best_item (catalog : List CatalogItem) (budget : ℚ) : Option CatalogItem :=
  match ((List.insertionSort priceLE catalog).filter
      (fun x => decide (x.price ≤ budget))).getLast? with
  | some item => some item
  | none => (List.insertionSort priceLE catalog).head?

lemma filter_price_orderedInsert (c : ℚ) (a : CatalogItem) (l : List CatalogItem) :
    (List.orderedInsert priceLE a l).filter (fun x => decide (x.price = c)) =
      if a.price = c then a :: l.filter (fun x => decide (x.price = c))
      else l.filter (fun x => decide (x.price = c)) := by
  induction l with
  | nil =>
    by_cases h : a.price = c <;> simp [List.orderedInsert, h]
  | cons b t ih =>
    by_cases hr : priceLE a b
    · simp only [List.orderedInsert, if_pos hr]
      by_cases h : a.price = c <;> simp [List.filter_cons, h]
    · have hba : b.price < a.price := lt_of_not_le hr
      simp only [List.orderedInsert, if_neg hr]
      by_cases h : a.price = c
      · have hb : ¬ b.price = c := by
          intro hbc
          rw [hbc, ← h] at hba
          exact absurd hba (lt_irrefl _)
        simp [List.filter_cons, hb, h, ih]
      · by_cases hbc : b.price = c <;> simp [List.filter_cons, hbc, h, ih]

lemma filter_price_insertionSort (c : ℚ) (l : List CatalogItem) :
    (List.insertionSort priceLE l).filter (fun x => decide (x.price = c)) =
      l.filter (fun x => decide (x.price = c)) := by
  induction l with
  | nil => rfl
  | cons a t ih =>
    rw [List.insertionSort, filter_price_orderedInsert]
    by_cases h : a.price = c <;> simp [List.filter_cons, h, ih]

lemma sorted_getLast_max {l : List CatalogItem} (hs : l.Sorted priceLE) {m : CatalogItem}
    (hm : l.getLast? = some m) : ∀ x ∈ l, x.price ≤ m.price := by
  induction l with
  | nil => simp at hm
  | cons a t ih =>
    cases t with
    | nil =>
      simp at hm
      subst hm
      intro x hx
      simp at hx
      subst hx
      exact le_rfl
    | cons b t2 =>
      rw [List.getLast?_cons_cons] at hm
      intro x hx
      rcases List.mem_cons.mp hx with rfl | hx2
      · have hab : priceLE x b := List.rel_of_sorted_cons hs b (List.mem_cons_self b t2)
        have hbm : b.price ≤ m.price := ih hs.of_cons hm b (List.mem_cons_self b t2)
        exact le_trans hab hbm
      · exact ih hs.of_cons hm x hx2

lemma sorted_head_min {l : List CatalogItem} (hs : l.Sorted priceLE) {m : CatalogItem}
    (hm : l.head? = some m) : ∀ x ∈ l, m.price ≤ x.price := by
  cases l with
  | nil => simp at hm
  | cons a t =>
    have ham : a = m := by simpa using hm
    subst ham
    intro x hx
    rcases List.mem_cons.mp hx with rfl | hx2
    · exact le_rfl
    · exact List.rel_of_sorted_cons hs x hx2

lemma getLast?_cons_of_ne_nil {α : Type _} {l : List α} (a : α) (h : l ≠ []) :
    (a :: l).getLast? = l.getLast? := by
  cases l with
  | nil => exact absurd rfl h
  | cons b t => exact List.getLast?_cons_cons

lemma getLast_filter_self {l : List CatalogItem} {m : CatalogItem}
    (hm : l.getLast? = some m) :
    (l.filter (fun x => decide (x.price = m.price))).getLast? = some m := by
  induction l with
  | nil => simp at hm
  | cons a t ih =>
    cases t with
    | nil =>
      simp at hm
      subst hm
      simp [List.filter_cons]
    | cons b t2 =>
      rw [List.getLast?_cons_cons] at hm
      have ht := ih hm
      have hne : (b :: t2).filter (fun x => decide (x.price = m.price)) ≠ [] := by
        intro h0
        rw [h0] at ht
        simp at ht
      rw [List.filter_cons]
      split
      · rw [getLast?_cons_of_ne_nil _ hne]
        exact ht
      · exact ht

/-- Claim C3: for every non-empty catalog and non-negative budget,
`pick_best_item` returns a member of the catalog, never a no-match result.
When some item is affordable (price at most the budget, equality included) it
returns an affordable item of maximal price, and among the catalog items of
exactly that price it is the last in original catalog order (the stable sort
preserves original order on equal prices). When no item is affordable it
returns an item of minimal price, the first in original catalog order among
the items of that price. -/
theorem pick_best_item_spec (catalog : List CatalogItem) (budget : ℚ)
    (hne : catalog ≠ []) (hb : 0 ≤ budget) :
    ∃ r, pick_best_item catalog budget = some r ∧ r ∈ catalog ∧
      ((∃ x ∈ catalog, x.price ≤ budget) →
        r.price ≤ budget ∧
        (∀ x ∈ catalog, x.price ≤ budget → x.price ≤ r.price) ∧
        (catalog.filter (fun x => decide (x.price = r.price))).getLast? = some r) ∧
      ((∀ x ∈ catalog, budget < x.price) →
        (∀ x ∈ catalog, r.price ≤ x.price) ∧
        (catalog.filter (fun x => decide (x.price = r.price))).head? = some r) := by
  have hsorted : (List.insertionSort priceLE catalog).Sorted priceLE :=
    List.sorted_insertionSort priceLE catalog
  have hperm := List.perm_insertionSort priceLE catalog
  rcases hlast : ((List.insertionSort priceLE catalog).filter
      (fun x => decide (x.price ≤ budget))).getLast? with _ | r
  · -- no affordable item: the head of the sorted catalog is returned
    have haffnil : (List.insertionSort priceLE catalog).filter
        (fun x => decide (x.price ≤ budget)) = [] :=
      List.getLast?_eq_none_iff.mp hlast
    have hnoafford : ∀ x ∈ List.insertionSort priceLE catalog, ¬ x.price ≤ budget := by
      intro x hx hxb
      have hxa : x ∈ (List.insertionSort priceLE catalog).filter
          (fun x => decide (x.price ≤ budget)) :=
        List.mem_filter.mpr ⟨hx, by simpa using hxb⟩
      rw [haffnil] at hxa
      simp at hxa
    have hsne : List.insertionSort priceLE catalog ≠ [] := by
      intro h0
      apply hne
      have hl := hperm.length_eq
      rw [h0] at hl
      simp only [List.length_nil] at hl
      exact List.eq_nil_of_length_eq_zero hl.symm
    obtain ⟨m, t, hst⟩ : ∃ m t, List.insertionSort priceLE catalog = m :: t := by
      rcases hcase : List.insertionSort priceLE catalog with _ | ⟨m, t⟩
      · exact absurd hcase hsne
      · exact ⟨m, t, rfl⟩
    have hpick : pick_best_item catalog budget = some m := by
      unfold pick_best_item
      rw [hlast, hst]
      rfl
    have hmcat : m ∈ catalog := hperm.mem_iff.mp (by rw [hst]; exact List.mem_cons_self m t)
    refine ⟨m, hpick, hmcat, ?_, fun _ => ⟨?_, ?_⟩⟩
    · rintro ⟨x, hx, hxb⟩
      exact absurd hxb (hnoafford x (hperm.mem_iff.mpr hx))
    · intro x hx
      exact sorted_head_min hsorted (by rw [hst]; rfl) x (hperm.mem_iff.mpr hx)
    · rw [← filter_price_insertionSort m.price catalog, hst, List.filter_cons]
      simp
  · -- some item is affordable: the last of the affordable slice is returned
    have hpick : pick_best_item catalog budget = some r := by
      unfold pick_best_item
      rw [hlast]
    have hraff : r ∈ (List.insertionSort priceLE catalog).filter
        (fun x => decide (x.price ≤ budget)) :=
      List.mem_of_getLast?_eq_some hlast
    have hrs : r ∈ List.insertionSort priceLE catalog := (List.mem_filter.mp hraff).1
    have hrb : r.price ≤ budget := by
      have h2 := (List.mem_filter.mp hraff).2
      simpa using h2
    have hrcat : r ∈ catalog := hperm.mem_iff.mp hrs
    refine ⟨r, hpick, hrcat, fun _ => ⟨hrb, ?_, ?_⟩,
      fun hnone => absurd hrb (not_le.mpr (hnone r hrcat))⟩
    · intro x hx hxb
      have hxaff : x ∈ (List.insertionSort priceLE catalog).filter
          (fun x => decide (x.price ≤ budget)) :=
        List.mem_filter.mpr ⟨hperm.mem_iff.mpr hx, by simpa using hxb⟩
      exact sorted_getLast_max (hsorted.filter _) hlast x hxaff
    · have h2 : ((List.insertionSort priceLE catalog).filter
          (fun x => decide (x.price ≤ budget))).filter (fun x => decide (x.price = r.price)) =
          (List.insertionSort priceLE catalog).filter (fun x => decide (x.price = r.price)) := by
        rw [List.filter_filter]
        apply List.filter_congr
        intro x hx
        by_cases hxc : x.price = r.price
        · have hxb : x.price ≤ budget := hxc ▸ hrb
          simp [hxc, hxb, hrb]
        · simp [hxc]
      rw [← filter_price_insertionSort r.price catalog, ← h2]
      exact getLast_filter_self hlast

/-- Witness for claim C3 at the spec's example catalog with budget 100: the
matcher yields a definite catalog member. -/
theorem pick_best_item_spec_witness :
    ∃ r, pick_best_item [⟨"A", "A", 100⟩, ⟨"B", "B", 50⟩, ⟨"C", "C", 150⟩] 100 = some r ∧
      r ∈ [(⟨"A", "A", 100⟩ : CatalogItem), ⟨"B", "B", 50⟩, ⟨"C", "C", 150⟩] := by
  obtain ⟨r, h1, h2, _⟩ :=
    pick_best_item_spec [⟨"A", "A", 100⟩, ⟨"B", "B", 50⟩, ⟨"C", "C", 150⟩] 100
      (by simp) (by norm_num)
  exact ⟨r, h1, h2⟩

end MoneyTracker
